import Mathlib

/-!
Verification development for the RoopeRobotti Automower CLI.

The development shallowly embeds the Python sources (`main.py`,
`automower_ctl.py`, `amc_action.py`) in Lean: pure payload/state logic is
translated to Lean functions, the stateful token manager becomes explicit
state passing, file contents are modelled as `List Char` with newline `'\n'`,
and side effects (credential persistence, HTTP posts, log lines, sleeps) are
reified as values or event traces.  Times are modelled as integers (the code
uses `time.time()` floats; only order and subtraction by constants matter).
-/

deriving instance DecidableEq for Except

namespace Automower

/-- Python truthiness of an `Optional[str]`: `None` and `""` are falsy. -/
def pyTruthy : Option String → Bool
  | none => false
  | some s => !(s == "")

/-! ### Token manager (`main.py`, `StaticAuth`) -/

/-- A token-endpoint response body: `access_token`, optional `refresh_token`,
optional `expires_in` (the code defaults it to 300 via `tok.get`). -/
structure TokenResp where
  access_token : String
  refresh_token : Option String
  expires_in : Option Int
deriving DecidableEq

/-- The mutable fields of `StaticAuth`: `self.refresh_token`,
`self._access_token`, `self._expires_at`. -/
structure AuthState where
  refresh_token : String
  access_token : Option String
  expires_at : Int
deriving DecidableEq

/-- `StaticAuth.__init__`: no cached access token, `_expires_at = 0.0`. -/
def AuthState.init (rt : String) : AuthState :=
  { refresh_token := rt, access_token := none, expires_at := 0 }

/-- An observable credential-store side effect. -/
inductive Effect where
  | persistRT (rt : String)
deriving DecidableEq

/-- Result of one `async_get_access_token` call: the state afterwards, whether
a token-endpoint exchange was performed, the credential-store effects emitted
before returning, and the returned access token. -/
structure CallResult where
  state : AuthState
  exchanged : Bool
  effects : List Effect
  returned : Option String
deriving DecidableEq

/-- The guard `if not self._access_token or now >= self._expires_at - 30:`. -/
def needsExchange (st : AuthState) (now : Int) : Bool :=
  !pyTruthy st.access_token || decide (now ≥ st.expires_at - 30)

/-- `StaticAuth.async_get_access_token` (main.py lines 120-147), with the
token-endpoint response of the (successful) exchange passed as a parameter.
On exchange it caches the token, sets `_expires_at = now + expires_in` and,
when `new_rt and new_rt != self.refresh_token`, updates the in-memory
refresh token and calls `_persist_refresh_token_to_env` before returning. -/
def async_get_access_token (st : AuthState) (now : Int) (resp : TokenResp) : CallResult :=
  if needsExchange st now then
    let st1 : AuthState :=
      { st with access_token := some resp.access_token,
                expires_at := now + (resp.expires_in.getD 300) }
    match resp.refresh_token with
    | some rt' =>
      if rt' ≠ "" ∧ rt' ≠ st.refresh_token then
        { state := { st1 with refresh_token := rt' }, exchanged := true,
          effects := [Effect.persistRT rt'], returned := some resp.access_token }
      else
        { state := st1, exchanged := true, effects := [], returned := some resp.access_token }
    | none =>
      { state := st1, exchanged := true, effects := [], returned := some resp.access_token }
  else
    { state := st, exchanged := false, effects := [], returned := st.access_token }

/-- The cache update performed by every exchange: store the fresh access
token and its absolute expiry `now + expires_in` (default 300). -/
def exchangedState (st : AuthState) (now : Int) (resp : TokenResp) : AuthState :=
  { st with access_token := some resp.access_token, expires_at := now + (resp.expires_in.getD 300) }

/-- The rotation-persist step of `automower_ctl.main` / `amc_action.main`:
`if rotated and rotated != cfg.refresh_token: _persist_rotated_rt(rotated)`. -/
def ctl_rotation_effects (cur : String) (rotated : Option String) : List Effect :=
  match rotated with
  | some rt' => if rt' ≠ "" ∧ rt' ≠ cur then [Effect.persistRT rt'] else []
  | none => []

/-- Run a sequence of `async_get_access_token` calls, each given its wall
clock time and the response the token endpoint would return; the second
component counts how many calls actually performed an exchange. -/
def runCalls (st : AuthState) : List (Int × TokenResp) → AuthState × Nat
  | [] => (st, 0)
  | (now, resp) :: rest =>
    let r := async_get_access_token st now resp
    let p := runCalls r.state rest
    (p.1, (if r.exchanged then 1 else 0) + p.2)

/-! ### Device directory (`automower_ctl.py`, `pick_mower`) -/

/-- The fields of a device item read by the CLI: `it.get("id")`, the nested
`attributes.system.name`, and `attributes.capabilities.headlights` (each may
be missing in the JSON). -/
structure Mower where
  id : Option String
  name : Option String
  headlights : Option Bool
deriving DecidableEq

/-- How `pick_mower` fails: `SystemExit(message)` (process exit status 1) for
the not-found style failures, and `SystemExit(2)` after printing one
`- name (id)` line per candidate for the ambiguous case.  Messages are
elided; the exit status is recovered by `PickErr.exitCode`. -/
inductive PickErr where
  | notFound
  | ambiguous (candidates : List (String × Option String))
deriving DecidableEq

/-- Process exit status produced by each `pick_mower` failure. -/
def PickErr.exitCode : PickErr → Nat
  | notFound => 1
  | ambiguous _ => 2

/-- Python `name or '(no-name)'` used when listing ambiguous candidates. -/
def pyNameOr : Option String → String
  | some s => if s == "" then "(no-name)" else s
  | none => "(no-name)"

/-- `pick_mower` (automower_ctl.py lines 99-120): empty list fails; a truthy
`--mower-id` selects by exact id; else a truthy `--mower-name` selects by
exact name; else a singleton list yields its only element; else the
candidates are printed and the process exits with status 2.
(`amc_action.pick_mower` lines 84-105 is the same policy, returning the id.) -/
def pick_mower (items : List Mower) (mower_id mower_name : Option String) :
    Except PickErr Mower :=
  if items.isEmpty then Except.error PickErr.notFound
  else if pyTruthy mower_id then
    match items.find? (fun it => it.id == mower_id) with
    | some it => Except.ok it
    | none => Except.error PickErr.notFound
  else if pyTruthy mower_name then
    match items.find? (fun it => it.name == mower_name) with
    | some it => Except.ok it
    | none => Except.error PickErr.notFound
  else
    match items with
    | [it] => Except.ok it
    | _ => Except.error (PickErr.ambiguous (items.map (fun it => (pyNameOr it.name, it.id))))

/-- `true` exactly on the ambiguous (exit status 2) failure. -/
def isAmbiguous : Except PickErr Mower → Bool
  | Except.error (PickErr.ambiguous _) => true
  | _ => false

/-- Sample devices "A","B","C" with ids "1","2","3" (spec §8). -/
def mowerA : Mower := { id := some "1", name := some "A", headlights := none }

/-- Second sample device. -/
def mowerB : Mower := { id := some "2", name := some "B", headlights := none }

/-- Third sample device. -/
def mowerC : Mower := { id := some "3", name := some "C", headlights := none }

/-! ### Action dispatcher (`automower_ctl.py`) -/

/-- An action request body `{data: {type, attributes?}}`; integer-valued
attributes only (duration, work area id). -/
structure ActionPayload where
  ty : String
  attrs : List (String × Int)
deriving DecidableEq

/-- `do_resume` (automower_ctl.py lines 152-160): post `ResumeSchedule`; on
any exception post `Start` when `--fallback-start` was given, else re-raise.
Parameters `primary` and `fallbackOutcome` are the outcomes the action
endpoint would give the two posts; the result lists the action types posted,
in order, and the overall outcome. -/
def do_resume (fallback_start : Bool) (primary fallbackOutcome : Except String Unit) :
    List String × Except String Unit :=
  match primary with
  | Except.ok _ => (["ResumeSchedule"], Except.ok ())
  | Except.error e =>
    if fallback_start then (["ResumeSchedule", "Start"], fallbackOutcome)
    else (["ResumeSchedule"], Except.error e)

/-- `do_park` payload construction (automower_ctl.py lines 178-192). -/
def do_park (duration : Option Int) (until_next : Bool) : ActionPayload :=
  if until_next then { ty := "ParkUntilNextSchedule", attrs := [] }
  else
    match duration with
    | none => { ty := "ParkUntilFurtherNotice", attrs := [] }
    | some d => { ty := "Park", attrs := [("duration", d)] }

/-- The park payload of `amc_action.main` (lines 169-178; no until-next flag). -/
def amc_park (duration : Option Int) : ActionPayload :=
  match duration with
  | none => { ty := "ParkUntilFurtherNotice", attrs := [] }
  | some d => { ty := "Park", attrs := [("duration", d)] }

/-- The settings payload `{type: "settings", attributes: {headlight: {mode}}}`. -/
structure HlPayload where
  ty : String
  mode : String
deriving DecidableEq

/-- Python `str` of an `Optional[str]` interpolated into an f-string. -/
def pyShow : Option String → String
  | some s => s
  | none => "None"

/-- The informational line printed when headlights are unsupported
(quotation marks around the name elided). -/
def no_headlights_msg (m : Mower) : String :=
  "Model has no headlights capability (headlights=False) for " ++
    pyShow (if pyTruthy m.name then m.name else m.id) ++ "."

/-- `do_set_headlight` (automower_ctl.py lines 205-214): if
`caps.get("headlights", False)` is falsy, print an informational message and
return without posting; otherwise post the settings payload (`post` is the
outcome the endpoint would give).  Result: posted payloads, messages,
overall outcome. -/
def do_set_headlight (m : Mower) (mode : String) (post : Except String Unit) :
    List HlPayload × List String × Except String Unit :=
  if (m.headlights.getD false) = false then
    ([], [no_headlights_msg m], Except.ok ())
  else
    ([{ ty := "settings", mode := mode }], [], post)

/-- Sample device without the headlights capability flag. -/
def mowerNoHl : Mower := { id := some "m1", name := some "Robo", headlights := none }

/-! ### Polling loop (`main.py`, `run_loop`) -/

/-- Observable events of the polling loop. -/
inductive LoopEv where
  | iterate (ok : Bool)
  | logError (msg : String)
  | sleep (secs : Int)
deriving DecidableEq

/-- `run_loop` (main.py lines 272-278): `while True: try: run_once except
Exception: log.exception; sleep(max(1, poll_seconds))`, driven by the finite
list of outcomes the successive `run_once` calls would have. -/
def run_loop (poll_seconds : Int) : List (Except String Int) → List LoopEv
  | [] => []
  | Except.ok _ :: rest =>
    LoopEv.iterate true :: LoopEv.sleep (max 1 poll_seconds) :: run_loop poll_seconds rest
  | Except.error e :: rest =>
    LoopEv.iterate false :: LoopEv.logError e ::
      LoopEv.sleep (max 1 poll_seconds) :: run_loop poll_seconds rest

/-- Number of iterations recorded in a loop trace. -/
def countIters : List LoopEv → Nat
  | [] => 0
  | LoopEv.iterate _ :: r => countIters r + 1
  | _ :: r => countIters r

/-- Number of sleeps recorded in a loop trace. -/
def countSleeps : List LoopEv → Nat
  | [] => 0
  | LoopEv.sleep _ :: r => countSleeps r + 1
  | _ :: r => countSleeps r

/-! ### Telemetry encoding (`main.py`, `_enum_num` and `InfluxWriter.write`) -/

/-- The fixed enumeration lookup table of `_enum_num`. -/
def enumTable : List (String × Int) :=
  [("UNKNOWN", 0), ("PARKED", 1), ("PAUSED", 2), ("STOPPED", 3), ("IN_OPERATION", 4),
   ("MOWING", 5), ("GOING_HOME", 6), ("LEAVING", 7), ("CHARGING", 8), ("ERROR", 9),
   ("SLEEPING", 10), ("FATAL_ERROR", 11), ("RESTRICTED", 12), ("DISCONNECTED", 13),
   ("MANUAL_START_REQUIRED", 14), ("AUTO", 20), ("MAIN_AREA", 21),
   ("SECONDARY_AREA", 22), ("HOME", 23)]

/-- Python `str.upper()` (ASCII suffices for the values in play),
character-wise over the string data. -/
def pyUpper (s : String) : String := String.mk (s.data.map Char.toUpper)

/-- `_enum_num` (main.py lines 196-205): `None` passes through; otherwise
`table.get(str(val).upper(), 0)`. -/
def enum_num : Option String → Option Int
  | none => none
  | some v => some ((enumTable.lookup (pyUpper v)).getD 0)

/-- A point field value (floats of the source modelled as integers). -/
inductive Fv where
  | bool (b : Bool)
  | int (i : Int)
  | str (s : String)
deriving DecidableEq

/-- `InfluxWriter.write` (main.py lines 162-177): every `None`-valued entry
of the fields dict is skipped (`continue`); the rest are emitted. -/
def influx_write (fields : List (String × Option Fv)) : List (String × Fv) :=
  fields.filterMap (fun kv => (kv.2).map (fun v => (kv.1, v)))

/-! ### Credential store (`_persist_refresh_token_to_env`, `_persist_rotated_rt`)

File contents are modelled as `List Char` with `'\n'` the only newline
(the files in play are plain ASCII `KEY=value` lines). -/

/-- A file content or fragment. -/
abbrev Str := List Char

/-- Python `str.startswith` on the char-list model. -/
def isPre : Str → Str → Bool
  | [], _ => true
  | _ :: _, [] => false
  | a :: s, b :: t => a == b && isPre s t

/-- Python substring test `key in t`. -/
def hasSub (key : Str) : Str → Bool
  | [] => isPre key []
  | c :: t => isPre key (c :: t) || hasSub key t

/-- Split at every `'\n'`, keeping all (possibly empty) pieces; the regex
`^...$` in MULTILINE mode sees exactly these pieces as lines. -/
def splitNl : Str → List Str
  | [] => [[]]
  | c :: t =>
    if c = '\n' then [] :: splitNl t
    else
      match splitNl t with
      | [] => [[c]]
      | h :: r => (c :: h) :: r

/-- Join pieces with `'\n'` (inverse of `splitNl`). -/
def joinNl : List Str → Str
  | [] => []
  | [l] => l
  | l :: ls => l ++ '\n' :: joinNl ls

/-- Python `text.endswith("\n")`. -/
def endsWithNl (t : Str) : Bool := t.getLast? == some '\n'

/-- The line-break characters of Python `str.splitlines`: `\n`, `\r`
(also as `\r\n`), `\v`, `\f`, the separators `\x1c`-`\x1e`, NEL `\x85`,
and the Unicode line/paragraph separators. -/
def pyLineBreak (c : Char) : Bool :=
  c = '\n' || c = '\r' || c = '\x0b' || c = '\x0c' || c = '\x1c' || c = '\x1d' ||
  c = '\x1e' || c = '\x85' || c = '\u2028' || c = '\u2029'

/-- Python `str.splitlines()` for text whose only line-break character is
`'\n'`: like `splitNl` but without a final empty piece for a trailing
newline, and `[]` for `""`.  On text containing any other `pyLineBreak`
character Python splits more finely than this model, so every theorem
quantifying over file contents hypothesizes contents free of those
characters. -/
def pySplitlines (t : Str) : List Str :=
  if t = [] then [] else if endsWithNl t then (splitNl t).dropLast else splitNl t

/-- Python `str.strip()` with Lean's whitespace set (space, tab, CR, LF).
Python strips a wider Unicode whitespace set; under the theorems'
substring-only-at-line-start hypothesis the difference cannot change the
match decision of `_persist_refresh_token_to_env`: any strip result is an
infix of the line, so a key match after stripping forces the key to occur
inside the line, hence (hypothesis) at its start; and a line starting with
the key keeps that prefix under either whitespace set, because `'H'` and
`'='` are whitespace in neither. -/
def pyStrip (t : Str) : Str :=
  (((t.dropWhile Char.isWhitespace).reverse).dropWhile Char.isWhitespace).reverse

/-- The credential key both persist functions rewrite. -/
def KEY : Str := "HUSQ_REFRESH_TOKEN=".toList

/-- A line that the MULTILINE regex `^HUSQ_REFRESH_TOKEN=.*$` matches. -/
def isKeyLine (ln : Str) : Bool := isPre KEY ln

/-- The entry written for a persisted value. -/
def entryLine (rt : Str) : Str := KEY ++ rt

/-- The `for i, ln in enumerate(lines): if ln.strip().startswith(...)`
loop of `_persist_refresh_token_to_env`: replace the first matching line,
`none` when no line matches (the loop's `else:` branch appends). -/
def replaceFirstRT (rt : Str) : List Str → Option (List Str)
  | [] => none
  | ln :: rest =>
    if isPre KEY (pyStrip ln) then some (entryLine rt :: rest)
    else (replaceFirstRT rt rest).map (fun r => ln :: r)

/-- `_persist_refresh_token_to_env` (main.py lines 89-104) as a content
transformer; `none` stands for an absent file.  Absent file: write the
single entry.  Otherwise `splitlines`, replace the first line whose
stripped form starts with the key (else append), and write
`"\n".join(lines) + "\n"`. -/
def persist_refresh_token_to_env (rt : Str) : Option Str → Str
  | none => entryLine rt ++ ['\n']
  | some text =>
    match replaceFirstRT rt (pySplitlines text) with
    | some lines2 => joinNl lines2 ++ ['\n']
    | none => joinNl (pySplitlines text ++ [entryLine rt]) ++ ['\n']

/-- One unit of a processed `re.sub` replacement template: a literal
character, or a reference to group 0 (the whole match; the pattern
`^HUSQ_REFRESH_TOKEN=.*$` has no capture groups, so 0 is its only valid
group). -/
inductive TemplItem where
  | lit (c : Char)
  | group0
deriving DecidableEq

/-- Prepend a literal item to a template parse in progress. -/
def consLit (ch : Char) : Except Unit (List TemplItem) → Except Unit (List TemplItem)
  | Except.ok items => Except.ok (TemplItem.lit ch :: items)
  | Except.error e => Except.error e

/-- Prepend a group-0 reference to a template parse in progress. -/
def consG0 : Except Unit (List TemplItem) → Except Unit (List TemplItem)
  | Except.ok items => Except.ok (TemplItem.group0 :: items)
  | Except.error e => Except.error e

/-- Scan a `\g<name>` group name up to the closing `>`; `none` for an
unterminated name (Python: `missing >, unterminated name`). -/
def getUntilGt : Str → Option (Str × Str)
  | [] => none
  | '>' :: rest => some ([], rest)
  | c :: rest =>
    match getUntilGt rest with
    | some (nm, r) => some (c :: nm, r)
    | none => none

/-- `'0'`-`'7'`. -/
def isOctDigit (c : Char) : Bool := ('0' ≤ c) && (c ≤ '7')

/-- Decimal value of a digit string. -/
def decDigitsVal (nm : Str) : Nat := nm.foldl (fun a c => a * 10 + (c.toNat - 48)) 0

/-- Python `re._parser.parse_template` for a zero-capture-group pattern,
fuelled to keep the recursion structural (the wrapper supplies ample fuel).
`Except.error` is Python's `re.error`: a lone trailing backslash, a bad
ASCII-letter escape (`\q`, `\x`, ...), any numeric group reference
(`\1`-`\99`: the pattern has no groups), a malformed or non-zero `\g<...>`,
or an octal escape above `\377`.  Processed units: the escapes
`\a \b \f \n \r \t \v \\`, octal escapes `\0oo` / `\ooo`, a `\g<0>`
whole-match reference, backslash-plus-other-character kept literally, and
plain characters.  (Exotic spellings of group zero that `int()` accepts,
such as `\g<+0>`, are treated as errors; no theorem relies on the escape
path at all — every theorem hypothesizes a backslash-free value, on which
the template is its literal self.) -/
def parseTemplateF : Nat → Str → Except Unit (List TemplItem)
  | 0, _ => Except.error ()
  | _ + 1, [] => Except.ok []
  | fuel + 1, c :: rest =>
    if c = '\\' then
      match rest with
      | [] => Except.error ()
      | c2 :: rest1 =>
        if c2 = 'g' then
          match rest1 with
          | '<' :: rest2 =>
            match getUntilGt rest2 with
            | none => Except.error ()
            | some (nm, rest3) =>
              if nm = [] then Except.error ()
              else if nm.all Char.isDigit then
                if decDigitsVal nm = 0 then consG0 (parseTemplateF fuel rest3)
                else Except.error ()
              else Except.error ()
          | _ => Except.error ()
        else if c2 = '0' then
          match rest1 with
          | d1 :: r1 =>
            if isOctDigit d1 then
              match r1 with
              | d2 :: r2 =>
                if isOctDigit d2 then
                  consLit (Char.ofNat ((d1.toNat - 48) * 8 + (d2.toNat - 48)))
                    (parseTemplateF fuel r2)
                else consLit (Char.ofNat (d1.toNat - 48)) (parseTemplateF fuel r1)
              | [] => consLit (Char.ofNat (d1.toNat - 48)) (parseTemplateF fuel r1)
            else consLit (Char.ofNat 0) (parseTemplateF fuel rest1)
          | [] => consLit (Char.ofNat 0) (parseTemplateF fuel rest1)
        else if c2.isDigit then
          match rest1 with
          | d2 :: r2 =>
            if d2.isDigit then
              match r2 with
              | d3 :: r3 =>
                if isOctDigit c2 && isOctDigit d2 && isOctDigit d3 then
                  if (c2.toNat - 48) * 64 + (d2.toNat - 48) * 8 + (d3.toNat - 48) > 255 then
                    Except.error ()
                  else
                    consLit (Char.ofNat
                        ((c2.toNat - 48) * 64 + (d2.toNat - 48) * 8 + (d3.toNat - 48)))
                      (parseTemplateF fuel r3)
                else Except.error ()
              | [] => Except.error ()
            else Except.error ()
          | [] => Except.error ()
        else if c2 = 'a' then consLit '\x07' (parseTemplateF fuel rest1)
        else if c2 = 'b' then consLit '\x08' (parseTemplateF fuel rest1)
        else if c2 = 'f' then consLit '\x0c' (parseTemplateF fuel rest1)
        else if c2 = 'n' then consLit '\n' (parseTemplateF fuel rest1)
        else if c2 = 'r' then consLit '\r' (parseTemplateF fuel rest1)
        else if c2 = 't' then consLit '\t' (parseTemplateF fuel rest1)
        else if c2 = 'v' then consLit '\x0b' (parseTemplateF fuel rest1)
        else if c2 = '\\' then consLit '\\' (parseTemplateF fuel rest1)
        else if c2.isAlpha then Except.error ()
        else consLit '\\' (consLit c2 (parseTemplateF fuel rest1))
    else consLit c (parseTemplateF fuel rest)

/-- Template processing with ample fuel (each step consumes at least one
character, so `length + 1` never runs out). -/
def parseTemplate (t : Str) : Except Unit (List TemplItem) :=
  parseTemplateF (t.length + 1) t

/-- Substitute a processed template for one match: group-0 references
expand to the matched text (here the whole matched line). -/
def renderTemplate (matched : Str) : List TemplItem → Str
  | [] => []
  | TemplItem.lit ch :: r => ch :: renderTemplate matched r
  | TemplItem.group0 :: r => matched ++ renderTemplate matched r

/-- The `re.sub(r"^HUSQ_REFRESH_TOKEN=.*$", repl, text, flags=re.MULTILINE)`
call wrapped in the function's `try`: if the template raises `re.error`
the exception is swallowed by the broad `except` and the file is never
written (content unchanged); otherwise every line matching the pattern is
replaced by the processed template.  `re`'s MULTILINE `^`/`$` and `.`
treat `'\n'` as the only line break, so `splitNl` is exact here even for
text containing `'\r'`. -/
def applyTemplOrKeep (text : Str) (tpl : Except Unit (List TemplItem)) : Str :=
  match tpl with
  | Except.error _ => text
  | Except.ok items =>
    joinNl ((splitNl text).map (fun ln => if isKeyLine ln then renderTemplate ln items else ln))

/-- `_persist_rotated_rt` (amc_action.py lines 52-67, identical in
automower_ctl.py lines 65-79): read `""` for an absent file; if the key
occurs as a substring anywhere, `re.sub` every line matching
`^HUSQ_REFRESH_TOKEN=.*$` (MULTILINE) with the template
`HUSQ_REFRESH_TOKEN={new_rt}` — processing the value's backslash escapes,
and leaving the file unwritten when the template is rejected with
`re.error`; otherwise ensure a trailing newline on non-empty text and
append the entry verbatim. -/
def persist_rotated_rt (rt : Str) (prior : Option Str) : Str :=
  let text : Str := match prior with | none => [] | some t => t
  if hasSub KEY text then applyTemplOrKeep text (parseTemplate (KEY ++ rt))
  else
    (if text ≠ [] ∧ endsWithNl text = false then text ++ ['\n'] else text) ++
      (entryLine rt ++ ['\n'])

/-- Canonical presentation of a prior file content: its newline-free lines
plus a trailing-newline flag (`renderEnv lines trail` ranges over all
contents as `lines`/`trail` range over canonical decompositions). -/
def renderEnv (lines : List Str) (trail : Bool) : Str :=
  joinNl lines ++ (if trail then ['\n'] else [])

/-- Claim C5 as stated, as a decidable check on one persist run: the
resulting lines keep every non-key line unchanged, contain the entry for
the new value, equal `prior lines ++ [entry]` when the key was absent, the
trailing-newline discipline of the prior content is preserved, and an
absent file is created containing only the entry. -/
def C5claimB (persist : Str → Option Str → Str) (rt : Str) (prior : Option Str) : Bool :=
  match prior with
  | none => persist rt none == entryLine rt ++ ['\n']
  | some text =>
    let pl := pySplitlines text
    let ol := pySplitlines (persist rt (some text))
    (ol.filter (fun ln => !isKeyLine ln) == pl.filter (fun ln => !isKeyLine ln)) &&
    ol.contains (entryLine rt) &&
    (pl.any isKeyLine || ol == pl ++ [entryLine rt]) &&
    (endsWithNl (persist rt (some text)) == endsWithNl text)

/-- The frame property a persist run of the amended claim C5 must satisfy. -/
def persistGood (out rt : Str) (lines : List Str) (trail : Bool) : Prop :=
  (pySplitlines out).filter (fun ln => !isKeyLine ln) =
      lines.filter (fun ln => !isKeyLine ln) ∧
  entryLine rt ∈ pySplitlines out ∧
  (lines.all (fun ln => !isKeyLine ln) = true → pySplitlines out = lines ++ [entryLine rt]) ∧
  (trail = true → endsWithNl out = true)

/-- A file-system operation performed by a persist call. -/
inductive FsOp where
  | readFile (path : String)
  | writeFile (path : String) (content : Str)
  | renameFile (src dst : String)
deriving DecidableEq

/-- The I/O trace of `_persist_refresh_token_to_env`: `p.read_text()` when
the file exists, then a single truncating `p.write_text(...)` on the final
path itself. -/
def persistMainTrace (rt : Str) (path : String) (prior : Option Str) : List FsOp :=
  match prior with
  | none => [FsOp.writeFile path (persist_refresh_token_to_env rt none)]
  | some text =>
    [FsOp.readFile path, FsOp.writeFile path (persist_refresh_token_to_env rt (some text))]

/-- The I/O trace of `_persist_rotated_rt`: `open(env_path).read()` when the
file exists, then a single truncating `open(env_path, "w").write(...)` —
except that an `re.error` raised by the substitution template jumps to the
`except` before any write happens. -/
def persistAmcTrace (rt : Str) (path : String) (prior : Option Str) : List FsOp :=
  match prior with
  | none => [FsOp.writeFile path (persist_rotated_rt rt none)]
  | some text =>
    if hasSub KEY text then
      match parseTemplate (KEY ++ rt) with
      | Except.error _ => [FsOp.readFile path]
      | Except.ok _ =>
        [FsOp.readFile path, FsOp.writeFile path (persist_rotated_rt rt (some text))]
    else [FsOp.readFile path, FsOp.writeFile path (persist_rotated_rt rt (some text))]

/-- Recognize a rename (the replace step of write-to-temp-then-replace). -/
def isRenameOp : FsOp → Bool
  | FsOp.renameFile _ _ => true
  | _ => false

/-- Every write in the trace targets `path` itself (no temp file). -/
def writesOnlyTo (path : String) (ops : List FsOp) : Bool :=
  ops.all (fun op =>
    match op with
    | FsOp.writeFile p _ => p == path
    | _ => true)

/-- The file content observed if the process dies after `k` characters of a
truncating in-place write of `content`. -/
def crashState (content : Str) (k : Nat) : Str := content.take k

end Automower

namespace Automower

/-! ### Theorems for claims C1 and C2 -/

/-- Case lemma: no exchange needed. -/
theorem async_not_needed (st : AuthState) (now : Int) (resp : TokenResp)
    (h : needsExchange st now = false) :
    async_get_access_token st now resp =
      { state := st, exchanged := false, effects := [], returned := st.access_token } := by
  simp [async_get_access_token, h]

/-- Case lemma: exchange, no refresh token in the response. -/
theorem async_needed_none (st : AuthState) (now : Int) (resp : TokenResp)
    (h : needsExchange st now = true) (hr : resp.refresh_token = none) :
    async_get_access_token st now resp =
      { state := exchangedState st now resp, exchanged := true, effects := [],
        returned := some resp.access_token } := by
  simp [async_get_access_token, h, hr, exchangedState]

/-- Case lemma: exchange with rotation (non-empty, different refresh token). -/
theorem async_needed_rot (st : AuthState) (now : Int) (resp : TokenResp) (rt' : String)
    (h : needsExchange st now = true) (hr : resp.refresh_token = some rt')
    (hc : rt' ≠ "" ∧ rt' ≠ st.refresh_token) :
    async_get_access_token st now resp =
      { state := { exchangedState st now resp with refresh_token := rt' },
        exchanged := true, effects := [Effect.persistRT rt'],
        returned := some resp.access_token } := by
  simp only [async_get_access_token, h, if_true, hr, exchangedState]
  rw [if_pos hc]

/-- Case lemma: exchange, refresh token present but empty or unchanged. -/
theorem async_needed_norot (st : AuthState) (now : Int) (resp : TokenResp) (rt' : String)
    (h : needsExchange st now = true) (hr : resp.refresh_token = some rt')
    (hc : ¬ (rt' ≠ "" ∧ rt' ≠ st.refresh_token)) :
    async_get_access_token st now resp =
      { state := exchangedState st now resp, exchanged := true, effects := [],
        returned := some resp.access_token } := by
  simp only [async_get_access_token, h, if_true, hr, exchangedState]
  rw [if_neg hc]

/-- The exchange happens exactly when the guard fires. -/
theorem async_exchanged (st : AuthState) (now : Int) (resp : TokenResp) :
    (async_get_access_token st now resp).exchanged = needsExchange st now := by
  cases h : needsExchange st now
  · rw [async_not_needed st now resp h]
  · cases hr : resp.refresh_token
    · rw [async_needed_none st now resp h hr]
    · rename_i rt'
      by_cases hc : rt' ≠ "" ∧ rt' ≠ st.refresh_token
      · rw [async_needed_rot st now resp rt' h hr hc]
      · rw [async_needed_norot st now resp rt' h hr hc]

/-- Claim C1, counterexample.  The claim states that whenever a successful
exchange response contains a refresh token that differs from the one in
memory, the in-memory token is replaced and persisted.  The code checks
`if new_rt and new_rt != self.refresh_token`, so a response carrying the
empty-string refresh token `""` (which differs from the in-memory `"a"`)
rotates nothing and persists nothing: the claim as stated is false there. -/
theorem C1_counterexample :
    ¬ ((async_get_access_token (AuthState.init "a") 0
          ⟨"tok", some "", some 300⟩).exchanged = true →
       (some "" : Option String) ≠ none →
       (some "" : Option String) ≠ some (AuthState.init "a").refresh_token →
       some (async_get_access_token (AuthState.init "a") 0
          ⟨"tok", some "", some 300⟩).state.refresh_token = (some "" : Option String) ∧
       (async_get_access_token (AuthState.init "a") 0
          ⟨"tok", some "", some 300⟩).effects = [Effect.persistRT ""]) := by
  decide

/-- Claim C1 (amended): on a successful exchange whose response contains a
non-empty refresh token differing from the in-memory one, the in-memory
refresh token is replaced and exactly one persist effect is emitted before
returning; if the response refresh token is absent, empty, or equal to the
current one, no credential-store write occurs (likewise when no exchange
happens).  The second conjunct states the same for the rotation check in
`automower_ctl.main` / `amc_action.main`. -/
theorem C1_rotation :
    (∀ (st : AuthState) (now : Int) (resp : TokenResp),
      ((async_get_access_token st now resp).exchanged = true →
        (∀ rt', resp.refresh_token = some rt' → rt' ≠ "" → rt' ≠ st.refresh_token →
          (async_get_access_token st now resp).state.refresh_token = rt' ∧
          (async_get_access_token st now resp).effects = [Effect.persistRT rt']) ∧
        ((resp.refresh_token = none ∨ resp.refresh_token = some "" ∨
            resp.refresh_token = some st.refresh_token) →
          (async_get_access_token st now resp).effects = [])) ∧
      ((async_get_access_token st now resp).exchanged = false →
        (async_get_access_token st now resp).effects = [])) ∧
    (∀ (cur : String) (rot : Option String),
      (∀ rt', rot = some rt' → rt' ≠ "" → rt' ≠ cur →
        ctl_rotation_effects cur rot = [Effect.persistRT rt']) ∧
      ((rot = none ∨ rot = some "" ∨ rot = some cur) →
        ctl_rotation_effects cur rot = [])) := by
  constructor
  · intro st now resp
    constructor
    · intro hx
      have hneed : needsExchange st now = true := by
        rw [← async_exchanged st now resp]
        exact hx
      constructor
      · intro rt' h1 h2 h3
        rw [async_needed_rot st now resp rt' hneed h1 ⟨h2, h3⟩]
        exact ⟨rfl, rfl⟩
      · intro h
        rcases h with h | h | h
        · rw [async_needed_none st now resp hneed h]
        · rw [async_needed_norot st now resp "" hneed h (fun hc => hc.1 rfl)]
        · rw [async_needed_norot st now resp st.refresh_token hneed h (fun hc => hc.2 rfl)]
    · intro hx
      have hneed : needsExchange st now = false := by
        rw [← async_exchanged st now resp]
        exact hx
      rw [async_not_needed st now resp hneed]
  · intro cur rot
    constructor
    · intro rt' h1 h2 h3
      simp only [ctl_rotation_effects, h1]
      rw [if_pos ⟨h2, h3⟩]
    · intro h
      rcases h with h | h | h <;> simp only [ctl_rotation_effects, h]
      · rw [if_neg]
        intro hc
        exact hc.1 rfl
      · rw [if_neg]
        intro hc
        exact hc.2 rfl

/-- Witness for `C1_rotation`: a rotated non-empty token `"b"` replacing
`"a"` is stored in memory and persisted. -/
theorem C1_rotation_witness :
    (async_get_access_token (AuthState.init "a") 0 ⟨"t", some "b", none⟩).exchanged = true ∧
    (async_get_access_token (AuthState.init "a") 0 ⟨"t", some "b", none⟩).state.refresh_token = "b" ∧
    (async_get_access_token (AuthState.init "a") 0 ⟨"t", some "b", none⟩).effects =
      [Effect.persistRT "b"] := by
  have h := ((C1_rotation.1 (AuthState.init "a") 0 ⟨"t", some "b", none⟩).1 (by decide)).1
    "b" rfl (by decide) (by decide)
  exact ⟨by decide, h.1, h.2⟩

/-- Claim C2, counterexample.  The claim says an exchange happens iff no
cached access token exists or `now ≥ expires_at - 30`.  If the token endpoint
returns the empty string as `access_token`, the cache holds `some ""` (a
cached token exists and its window is still open at `now = 10`), yet the code
re-exchanges because `not self._access_token` is true for `""`. -/
theorem C2_counterexample :
    ¬ (((async_get_access_token
          (async_get_access_token (AuthState.init "r") 0 ⟨"", none, none⟩).state
          10 ⟨"x", none, none⟩).exchanged = true) ↔
        ((async_get_access_token (AuthState.init "r") 0 ⟨"", none, none⟩).state.access_token = none ∨
         (10 : Int) ≥ (async_get_access_token (AuthState.init "r") 0
            ⟨"", none, none⟩).state.expires_at - 30)) := by
  decide

/-- Claim C2 (amended): an exchange is performed on a call iff no *usable*
(non-empty) cached access token exists or `now ≥ expires_at - 30`; a sequence
of calls made with a usable cached token and all strictly inside the validity
window performs no exchange and leaves the state unchanged; hence any
sequence whose later calls stay inside the window opened by its first call
performs at most one exchange; and a single call at `now ≥ expires_at - 30`
performs exactly one exchange. -/
theorem C2_caching :
    (∀ (st : AuthState) (now : Int) (resp : TokenResp),
      (async_get_access_token st now resp).exchanged = true ↔
        (pyTruthy st.access_token = false ∨ now ≥ st.expires_at - 30)) ∧
    (∀ (st : AuthState) (calls : List (Int × TokenResp)),
      pyTruthy st.access_token = true →
      (∀ c ∈ calls, c.1 < st.expires_at - 30) →
      runCalls st calls = (st, 0)) ∧
    (∀ (st : AuthState) (now : Int) (resp : TokenResp) (rest : List (Int × TokenResp)),
      pyTruthy (async_get_access_token st now resp).state.access_token = true →
      (∀ c ∈ rest, c.1 < (async_get_access_token st now resp).state.expires_at - 30) →
      (runCalls st ((now, resp) :: rest)).2 ≤ 1) ∧
    (∀ (st : AuthState) (now : Int) (resp : TokenResp),
      now ≥ st.expires_at - 30 → (runCalls st [(now, resp)]).2 = 1) := by
  have hiff : ∀ (st : AuthState) (now : Int) (resp : TokenResp),
      (async_get_access_token st now resp).exchanged = true ↔
        (pyTruthy st.access_token = false ∨ now ≥ st.expires_at - 30) := by
    intro st now resp
    rw [async_exchanged st now resp]
    simp [needsExchange]
  have hquiet : ∀ (calls : List (Int × TokenResp)) (st : AuthState),
      pyTruthy st.access_token = true →
      (∀ c ∈ calls, c.1 < st.expires_at - 30) →
      runCalls st calls = (st, 0) := by
    intro calls
    induction calls with
    | nil => intro st _ _; rfl
    | cons c rest ih =>
      intro st htok hwin
      obtain ⟨now, resp⟩ := c
      have hne : needsExchange st now = false := by
        have hlt := hwin (now, resp) (by simp)
        simp only [needsExchange, Bool.or_eq_false_iff, Bool.not_eq_false',
          decide_eq_false_iff_not]
        refine ⟨htok, ?_⟩
        simp only at hlt
        omega
      have hres := async_not_needed st now resp hne
      have hrest := ih st htok (fun d hd => hwin d (by simp [hd]))
      simp [runCalls, hres, hrest]
  refine ⟨hiff, fun st calls => hquiet calls st, ?_, ?_⟩
  · intro st now resp rest htok hwin
    have hrest := hquiet rest (async_get_access_token st now resp).state htok hwin
    simp only [runCalls, hrest]
    split <;> simp
  · intro st now resp h
    have hx : (async_get_access_token st now resp).exchanged = true :=
      (hiff st now resp).2 (Or.inr h)
    simp [runCalls, hx]

/-- Witness for `C2_caching`: after an exchange at time 0 yielding a token
valid until 300, two further calls strictly inside the window (at 10 and 100)
perform no exchange, so the whole three-call sequence does one exchange; and
a single call at the initial state (expired) does exactly one. -/
theorem C2_caching_witness :
    pyTruthy (async_get_access_token (AuthState.init "r") 0 ⟨"tok", none, none⟩).state.access_token
      = true ∧
    (runCalls (AuthState.init "r")
      [(0, ⟨"tok", none, none⟩), (10, ⟨"u", none, none⟩), (100, ⟨"v", none, none⟩)]).2 ≤ 1 ∧
    (runCalls (AuthState.init "r") [(5, ⟨"tok", none, none⟩)]).2 = 1 := by
  refine ⟨by decide, ?_, ?_⟩
  · exact C2_caching.2.2.1 (AuthState.init "r") 0 ⟨"tok", none, none⟩
      [(10, ⟨"u", none, none⟩), (100, ⟨"v", none, none⟩)] (by decide) (by decide)
  · exact C2_caching.2.2.2 (AuthState.init "r") 5 ⟨"tok", none, none⟩ (by decide)

/-! ### Theorems for claim C3 -/

/-- Claim C3, counterexample.  With an empty device list and no selector the
code raises a not-found style `SystemExit` with status 1, not
`AmbiguousSelection` with status 2 as the claimed else-branch requires; and
an empty-string id selector is falsy in Python, so the code falls through to
single-device selection instead of failing with `NotFound` for an id no
device carries. -/
theorem C3_counterexample :
    (pick_mower [] none none = Except.error PickErr.notFound ∧
     isAmbiguous (pick_mower [] none none) = false ∧
     PickErr.notFound.exitCode ≠ 2) ∧
    (pick_mower [{ id := some "x", name := some "A", headlights := none }] (some "") none =
       Except.ok { id := some "x", name := some "A", headlights := none } ∧
     ¬ (∃ it ∈ [({ id := some "x", name := some "A", headlights := none } : Mower)],
          it.id = some "")) := by
  decide

/-- Claim C3 (amended): an empty device list fails with the not-found style
error (status 1) regardless of selectors; otherwise, with a *non-empty* id
the first device with exactly that id is returned, or the resolution fails
not-found; else with a *non-empty* name likewise by exact name; else a
single device is returned; else the resolution fails with
`AmbiguousSelection`, carrying the (name-or-placeholder, id) pair of every
candidate, and exits with the distinguished status 2 while not-found
failures exit with 1. -/
theorem C3_resolution :
    ∀ (items : List Mower) (mid mname : Option String),
    (items = [] → pick_mower items mid mname = Except.error PickErr.notFound) ∧
    (items ≠ [] → pyTruthy mid = true →
      (∀ it, items.find? (fun x => x.id == mid) = some it →
        pick_mower items mid mname = Except.ok it ∧ it ∈ items ∧ it.id = mid) ∧
      (items.find? (fun x => x.id == mid) = none →
        pick_mower items mid mname = Except.error PickErr.notFound)) ∧
    (items ≠ [] → pyTruthy mid = false → pyTruthy mname = true →
      (∀ it, items.find? (fun x => x.name == mname) = some it →
        pick_mower items mid mname = Except.ok it ∧ it ∈ items ∧ it.name = mname) ∧
      (items.find? (fun x => x.name == mname) = none →
        pick_mower items mid mname = Except.error PickErr.notFound)) ∧
    (pyTruthy mid = false → pyTruthy mname = false →
      (∀ it, items = [it] → pick_mower items mid mname = Except.ok it) ∧
      (2 ≤ items.length →
        pick_mower items mid mname =
          Except.error (PickErr.ambiguous (items.map (fun it => (pyNameOr it.name, it.id)))))) ∧
    (PickErr.notFound.exitCode = 1 ∧ ∀ ps, (PickErr.ambiguous ps).exitCode = 2) := by
  intro items mid mname
  refine ⟨?_, ?_, ?_, ?_, rfl, fun ps => rfl⟩
  · intro h
    subst h
    rfl
  · intro hne htr
    have hemp : items.isEmpty = false := by
      cases items with
      | nil => exact absurd rfl hne
      | cons a t => rfl
    constructor
    · intro it hf
      have hp := List.find?_some hf
      have hmem : it ∈ items := List.mem_of_find?_eq_some hf
      refine ⟨?_, hmem, by simpa using hp⟩
      simp [pick_mower, hemp, htr, hf]
    · intro hf
      simp [pick_mower, hemp, htr, hf]
  · intro hne hmid hnam
    have hemp : items.isEmpty = false := by
      cases items with
      | nil => exact absurd rfl hne
      | cons a t => rfl
    constructor
    · intro it hf
      have hp := List.find?_some hf
      have hmem : it ∈ items := List.mem_of_find?_eq_some hf
      refine ⟨?_, hmem, by simpa using hp⟩
      simp [pick_mower, hemp, hmid, hnam, hf]
    · intro hf
      simp [pick_mower, hemp, hmid, hnam, hf]
  · intro hmid hnam
    constructor
    · intro it h
      subst h
      simp [pick_mower, hmid, hnam]
    · intro hlen
      match items with
      | a :: b :: t => simp [pick_mower, hmid, hnam]

/-- Witness for `C3_resolution`, on the spec §8 example devices: id "2"
selects B, name "C" selects id "3", no selector with three devices is
ambiguous (status 2), no selector with exactly one device returns it. -/
theorem C3_resolution_witness :
    pick_mower [mowerA, mowerB, mowerC] (some "2") none = Except.ok mowerB ∧
    pick_mower [mowerA, mowerB, mowerC] none (some "C") = Except.ok mowerC ∧
    pick_mower [mowerA, mowerB, mowerC] none none =
      Except.error (PickErr.ambiguous [("A", some "1"), ("B", some "2"), ("C", some "3")]) ∧
    pick_mower [mowerA] none none = Except.ok mowerA := by
  refine ⟨?_, ?_, ?_, ?_⟩
  · exact (((C3_resolution [mowerA, mowerB, mowerC] (some "2") none).2.1
      (by decide) (by decide)).1 mowerB (by decide)).1
  · exact (((C3_resolution [mowerA, mowerB, mowerC] none (some "C")).2.2.1
      (by decide) (by decide) (by decide)).1 mowerC (by decide)).1
  · have h := ((C3_resolution [mowerA, mowerB, mowerC] none none).2.2.2.1
      (by decide) (by decide)).2 (by decide)
    simpa [mowerA, mowerB, mowerC, pyNameOr] using h
  · exact ((C3_resolution [mowerA] none none).2.2.2.1 (by decide) (by decide)).1 mowerA rfl

/-! ### Theorems for claims C4, C7, C8 -/

/-- Claim C4 (confirmed): if the primary `ResumeSchedule` succeeds only it is
sent and the result is success; if it fails with fallback requested, exactly
the two actions `ResumeSchedule, Start` are sent (one fallback, no further
retries) and the outcome is the fallback outcome (the primary error is
suppressed); if it fails without fallback, only the primary is sent and the
original error propagates unchanged; `Start` is never sent unless the
primary failed and fallback was requested. -/
theorem C4_resume_fallback :
    ∀ (fallback : Bool) (primary fb : Except String Unit),
    (primary = Except.ok () → do_resume fallback primary fb = (["ResumeSchedule"], Except.ok ())) ∧
    (∀ e, primary = Except.error e → fallback = true →
      do_resume fallback primary fb = (["ResumeSchedule", "Start"], fb)) ∧
    (∀ e, primary = Except.error e → fallback = false →
      do_resume fallback primary fb = (["ResumeSchedule"], Except.error e)) ∧
    ("Start" ∈ (do_resume fallback primary fb).1 → fallback = true ∧ primary ≠ Except.ok ()) ∧
    (do_resume fallback primary fb).1.count "Start" ≤ 1 := by
  intro fallback primary fb
  cases primary with
  | ok u =>
    cases u
    refine ⟨fun _ => rfl, ?_, ?_, ?_, ?_⟩
    · intro e he _
      exact absurd he (by simp)
    · intro e he _
      exact absurd he (by simp)
    · intro h
      simp [do_resume] at h
    · show (["ResumeSchedule"] : List String).count "Start" ≤ 1
      decide
  | error e0 =>
    cases fallback with
    | true =>
      refine ⟨?_, fun e _ _ => rfl, ?_, fun _ => ⟨rfl, by simp⟩, ?_⟩
      · intro h
        exact absurd h (by simp)
      · intro e _ hf
        exact absurd hf (by simp)
      · show (["ResumeSchedule", "Start"] : List String).count "Start" ≤ 1
        decide
    | false =>
      refine ⟨?_, ?_, ?_, ?_, ?_⟩
      · intro h
        exact absurd h (by simp)
      · intro e _ hf
        exact absurd hf (by simp)
      · intro e he _
        injection he with h
        subst h
        rfl
      · intro h
        simp [do_resume] at h
      · show (["ResumeSchedule"] : List String).count "Start" ≤ 1
        decide

/-- Witness for `C4_resume_fallback`: a failing primary with fallback
requested posts exactly one `Start` after the `ResumeSchedule`. -/
theorem C4_resume_fallback_witness :
    (Except.error "boom" : Except String Unit) = Except.error "boom" ∧
    do_resume true (Except.error "boom") (Except.ok ()) =
      (["ResumeSchedule", "Start"], Except.ok ()) := by
  exact ⟨rfl, (C4_resume_fallback true (Except.error "boom") (Except.ok ())).2.1
    "boom" rfl rfl⟩

/-- Claim C7 (confirmed): park with no duration and no until-next flag is
`ParkUntilFurtherNotice`; with a duration it is `Park` carrying exactly that
integer duration; with until-next it is `ParkUntilNextSchedule` regardless
of any duration.  The `amc_action` variant (without until-next) matches. -/
theorem C7_park :
    do_park none false = { ty := "ParkUntilFurtherNotice", attrs := [] } ∧
    (∀ d : Int, do_park (some d) false = { ty := "Park", attrs := [("duration", d)] }) ∧
    (∀ d : Option Int, do_park d true = { ty := "ParkUntilNextSchedule", attrs := [] }) ∧
    amc_park none = { ty := "ParkUntilFurtherNotice", attrs := [] } ∧
    (∀ d : Int, amc_park (some d) = { ty := "Park", attrs := [("duration", d)] }) := by
  exact ⟨rfl, fun d => rfl, fun d => rfl, rfl, fun d => rfl⟩

/-- Claim C8 (confirmed): when the device capabilities lack the headlights
flag (absent or false) the operation posts nothing, reports one
informational message and returns success; a post happens only when the
flag is present and true. -/
theorem C8_headlight_gating :
    ∀ (m : Mower) (mode : String) (post : Except String Unit),
    ((m.headlights = none ∨ m.headlights = some false) →
      do_set_headlight m mode post = ([], [no_headlights_msg m], Except.ok ())) ∧
    ((do_set_headlight m mode post).1 ≠ [] → m.headlights = some true) ∧
    (m.headlights = some true →
      do_set_headlight m mode post = ([{ ty := "settings", mode := mode }], [], post)) := by
  intro m mode post
  refine ⟨?_, ?_, ?_⟩
  · rintro (h | h) <;> simp [do_set_headlight, h]
  · intro h
    cases hh : m.headlights with
    | none => simp [do_set_headlight, hh] at h
    | some b =>
      cases b with
      | false => simp [do_set_headlight, hh] at h
      | true => rfl
  · intro h
    simp [do_set_headlight, h]

/-- Witness for `C8_headlight_gating`: a device without the capability flag
yields no post, the informational message, and success. -/
theorem C8_headlight_gating_witness :
    (mowerNoHl.headlights = none ∨ mowerNoHl.headlights = some false) ∧
    do_set_headlight mowerNoHl "ALWAYS_ON" (Except.ok ()) =
      ([], [no_headlights_msg mowerNoHl], Except.ok ()) := by
  exact ⟨Or.inl rfl,
    (C8_headlight_gating mowerNoHl "ALWAYS_ON" (Except.ok ())).1 (Or.inl rfl)⟩

/-! ### Theorems for claims C9 and C10 -/

/-- Claim C9 (confirmed): the polling loop runs one iteration per provided
outcome (an iteration's exception never terminates it), every error outcome
is logged, and after every iteration — successful or failed — it sleeps
exactly `max 1 poll_seconds` seconds, never less than 1. -/
theorem C9_poll_loop :
    ∀ (p : Int) (outs : List (Except String Int)),
    countIters (run_loop p outs) = outs.length ∧
    countSleeps (run_loop p outs) = outs.length ∧
    (∀ s, LoopEv.sleep s ∈ run_loop p outs → s = max 1 p ∧ 1 ≤ s) ∧
    (∀ e, Except.error e ∈ outs → LoopEv.logError e ∈ run_loop p outs) := by
  intro p outs
  induction outs with
  | nil =>
    refine ⟨rfl, rfl, ?_, ?_⟩
    · intro s h
      cases h
    · intro e h
      cases h
  | cons o rest ih =>
    obtain ⟨ih1, ih2, ih3, ih4⟩ := ih
    cases o with
    | ok v =>
      refine ⟨?_, ?_, ?_, ?_⟩
      · simp [run_loop, countIters, countSleeps, ih1]
      · simp [run_loop, countIters, countSleeps, ih2]
      · intro s h
        simp only [run_loop, List.mem_cons] at h
        rcases h with h | h | h
        · cases h
        · cases h
          exact ⟨rfl, le_max_left 1 p⟩
        · exact ih3 s h
      · intro e h
        simp only [List.mem_cons] at h
        rcases h with h | h
        · cases h
        · simp only [run_loop, List.mem_cons]
          exact Or.inr (Or.inr (ih4 e h))
    | error e0 =>
      refine ⟨?_, ?_, ?_, ?_⟩
      · simp [run_loop, countIters, countSleeps, ih1]
      · simp [run_loop, countIters, countSleeps, ih2]
      · intro s h
        simp only [run_loop, List.mem_cons] at h
        rcases h with h | h | h | h
        · cases h
        · cases h
        · cases h
          exact ⟨rfl, le_max_left 1 p⟩
        · exact ih3 s h
      · intro e h
        simp only [List.mem_cons] at h
        rcases h with h | h
        · cases h
          simp [run_loop]
        · simp only [run_loop, List.mem_cons]
          exact Or.inr (Or.inr (Or.inr (ih4 e h)))

/-- Witness for `C9_poll_loop`: a failing iteration followed by a successful
one yields two iterations and two sleeps of `max 1 0 = 1` second, and the
error is logged. -/
theorem C9_poll_loop_witness :
    countIters (run_loop 0 [Except.error "boom", Except.ok 0]) =
      [Except.error "boom", (Except.ok 0 : Except String Int)].length ∧
    Except.error "boom" ∈ [Except.error "boom", (Except.ok 0 : Except String Int)] ∧
    LoopEv.logError "boom" ∈ run_loop 0 [Except.error "boom", Except.ok 0] ∧
    LoopEv.sleep 1 ∈ run_loop 0 [Except.error "boom", (Except.ok 0 : Except String Int)] ∧
    (1 : Int) = max 1 0 ∧ (1 : Int) ≤ 1 := by
  refine ⟨(C9_poll_loop 0 [Except.error "boom", Except.ok 0]).1, by decide, ?_, by decide, ?_⟩
  · exact (C9_poll_loop 0 [Except.error "boom", Except.ok 0]).2.2.2 "boom" (by decide)
  · exact ⟨((C9_poll_loop 0 [Except.error "boom", Except.ok 0]).2.2.1 1 (by decide)).1,
      ((C9_poll_loop 0 [Except.error "boom", Except.ok 0]).2.2.1 1 (by decide)).2⟩

/-- Claim C10 (confirmed): `_enum_num` maps a missing (`None`) value to
`None` — not to the unknown-code 0 — and a present value through the lookup
table with unmatched strings mapping to 0; the metrics writer omits every
`None`-valued field, so a missing enumeration produces no field while an
unknown one produces the field with value 0. -/
theorem C10_enum_missing :
    enum_num none = none ∧
    (∀ v, enum_num (some v) = some ((enumTable.lookup (pyUpper v)).getD 0)) ∧
    (∀ v, enumTable.lookup (pyUpper v) = none → enum_num (some v) = some 0) ∧
    (∀ (fields : List (String × Option Fv)) (k : String) (v : Fv),
      (k, v) ∈ influx_write fields ↔ (k, some v) ∈ fields) ∧
    (∀ act : Option String, act = none →
      influx_write [("activity_num", (enum_num act).map Fv.int)] = []) ∧
    (∀ s, enumTable.lookup (pyUpper s) = none →
      influx_write [("activity_num", (enum_num (some s)).map Fv.int)] =
        [("activity_num", Fv.int 0)]) := by
  refine ⟨rfl, fun v => rfl, ?_, ?_, ?_, ?_⟩
  · intro v h
    simp [enum_num, h]
  · intro fields k v
    constructor
    · intro h
      simp only [influx_write, List.mem_filterMap] at h
      obtain ⟨a, hmem, heq⟩ := h
      obtain ⟨k', vo⟩ := a
      cases vo with
      | none => simp at heq
      | some w =>
        simp only [Option.map_some'] at heq
        injection heq with hpair
        cases hpair
        exact hmem
    · intro h
      simp only [influx_write, List.mem_filterMap]
      exact ⟨(k, some v), h, rfl⟩
  · intro act h
    subst h
    rfl
  · intro s h
    simp [enum_num, influx_write, h]

/-- Witness for `C10_enum_missing`: the unknown enumeration string "weird"
is emitted as 0, while an absent enumeration is omitted from the point. -/
theorem C10_enum_missing_witness :
    enumTable.lookup (pyUpper "weird") = none ∧
    enum_num (some "weird") = some 0 ∧
    influx_write [("activity_num", (enum_num none).map Fv.int)] = [] ∧
    influx_write [("activity_num", (enum_num (some "weird")).map Fv.int)] =
      [("activity_num", Fv.int 0)] := by
  refine ⟨by decide, ?_, ?_, ?_⟩
  · exact C10_enum_missing.2.2.1 "weird" (by decide)
  · exact C10_enum_missing.2.2.2.2.1 none rfl
  · exact C10_enum_missing.2.2.2.2.2 "weird" (by decide)

/-! ### String lemmas for the credential-store proofs -/

theorem isPre_append_self (a : Str) : ∀ b, isPre a (a ++ b) = true := by
  induction a with
  | nil => intro b; rfl
  | cons c s ih => intro b; simp [isPre, ih b]

theorem isPre_self (a : Str) : isPre a a = true := by
  have h := isPre_append_self a []
  simpa using h

theorem isPre_nil_of_ne {a : Str} (h : a ≠ []) : isPre a [] = false := by
  cases a with
  | nil => exact absurd rfl h
  | cons c s => rfl

theorem isPre_extend {key : Str} : ∀ {s : Str}, isPre key s = true → ∀ b,
    isPre key (s ++ b) = true := by
  induction key with
  | nil => intro s _ b; rfl
  | cons c k ih =>
    intro s h b
    cases s with
    | nil => exact absurd h (by simp [isPre])
    | cons x t =>
      simp only [isPre, Bool.and_eq_true] at h
      simp only [List.cons_append, isPre, Bool.and_eq_true]
      exact ⟨h.1, ih h.2 b⟩

theorem isPre_exists {key : Str} : ∀ {t : Str}, isPre key t = true → ∃ r, t = key ++ r := by
  induction key with
  | nil => intro t _; exact ⟨t, rfl⟩
  | cons c k ih =>
    intro t h
    cases t with
    | nil => exact absurd h (by simp [isPre])
    | cons x s =>
      simp only [isPre, Bool.and_eq_true, beq_iff_eq] at h
      obtain ⟨r, hr⟩ := ih h.2
      refine ⟨r, ?_⟩
      rw [List.cons_append, ← h.1, hr]

theorem isPre_nl : ∀ (key : Str), ('\n' : Char) ∉ key →
    ∀ a b, isPre key (a ++ '\n' :: b) = isPre key a := by
  intro key
  induction key with
  | nil => intro _ a b; rfl
  | cons c k ih =>
    intro hnl a b
    have hc : ¬ (c = '\n') := fun e => hnl (List.mem_cons.mpr (Or.inl e.symm))
    have hk : ('\n':Char) ∉ k := fun e => hnl (List.mem_cons_of_mem c e)
    cases a with
    | nil => simp [isPre, hc]
    | cons x a' =>
      simp only [List.cons_append, isPre, List.append_eq]
      rw [ih hk a' b]

theorem hasSub_of_isPre {key t : Str} (h : isPre key t = true) : hasSub key t = true := by
  cases t with
  | nil => exact h
  | cons c s => simp [hasSub, h]

theorem hasSub_append_left {key t : Str} (h : hasSub key t = true) :
    ∀ a, hasSub key (a ++ t) = true := by
  intro a
  induction a with
  | nil => simpa using h
  | cons c a' ih => simp [hasSub, ih]

theorem hasSub_nl {key : Str} (hnl : ('\n':Char) ∉ key) (hne : key ≠ []) :
    ∀ a b, hasSub key (a ++ '\n' :: b) = (hasSub key a || hasSub key b) := by
  intro a b
  induction a with
  | nil =>
    have h1 : isPre key ('\n' :: b) = false := by
      have h2 := isPre_nl key hnl [] b
      simpa [isPre_nil_of_ne hne] using h2
    simp [hasSub, h1, isPre_nil_of_ne hne]
  | cons c a' ih =>
    have hp := isPre_nl key hnl (c :: a') b
    simp only [List.cons_append, hasSub, List.append_eq] at *
    rw [hp, ih, Bool.or_assoc]

theorem hasSub_joinNl {key : Str} (hnl : ('\n':Char) ∉ key) (hne : key ≠ []) :
    ∀ lines : List Str, lines ≠ [] →
      hasSub key (joinNl lines) = lines.any (hasSub key) := by
  intro lines
  induction lines with
  | nil => intro h; exact absurd rfl h
  | cons l ls ih =>
    intro _
    cases ls with
    | nil => simp [joinNl]
    | cons m ms =>
      have hj : joinNl (l :: m :: ms) = l ++ '\n' :: joinNl (m :: ms) := rfl
      rw [hj, hasSub_nl hnl hne l (joinNl (m :: ms)), ih (by simp)]
      simp [List.any_cons]

theorem splitNl_ne_nil : ∀ t : Str, splitNl t ≠ [] := by
  intro t
  induction t with
  | nil => simp [splitNl]
  | cons c s ih =>
    by_cases h : c = '\n'
    · simp [splitNl, h]
    · simp only [splitNl, if_neg h]
      cases hs : splitNl s with
      | nil => simp
      | cons a r => simp

theorem mem_splitNl_no_nl : ∀ (t ln : Str), ln ∈ splitNl t → ('\n':Char) ∉ ln := by
  intro t
  induction t with
  | nil =>
    intro ln h
    simp [splitNl] at h
    rw [h]
    simp
  | cons c s ih =>
    intro ln h
    by_cases hc : c = '\n'
    · simp only [splitNl, if_pos hc, List.mem_cons] at h
      rcases h with h | h
      · rw [h]; simp
      · exact ih ln h
    · simp only [splitNl, if_neg hc] at h
      cases hs : splitNl s with
      | nil => exact absurd hs (splitNl_ne_nil s)
      | cons a r =>
        rw [hs] at h
        simp only [List.mem_cons] at h
        rcases h with h | h
        · rw [h]
          intro hm
          simp only [List.mem_cons] at hm
          rcases hm with hm | hm
          · exact hc hm.symm
          · exact ih a (by rw [hs]; exact List.mem_cons_self a r) hm
        · exact ih ln (by rw [hs]; exact List.mem_cons_of_mem a h)

theorem splitNl_single : ∀ l : Str, ('\n':Char) ∉ l → splitNl l = [l] := by
  intro l
  induction l with
  | nil => intro _; rfl
  | cons c s ih =>
    intro h
    have hc : ¬ (c = '\n') := fun e => h (List.mem_cons.mpr (Or.inl e.symm))
    have hs : ('\n':Char) ∉ s := fun e => h (List.mem_cons_of_mem c e)
    simp only [splitNl, if_neg hc, ih hs]

theorem splitNl_append_nl : ∀ (a b : Str), ('\n':Char) ∉ a →
    splitNl (a ++ '\n' :: b) = a :: splitNl b := by
  intro a
  induction a with
  | nil => intro b _; simp [splitNl]
  | cons c a' ih =>
    intro b h
    have hc : ¬ (c = '\n') := fun e => h (List.mem_cons.mpr (Or.inl e.symm))
    have ha : ('\n':Char) ∉ a' := fun e => h (List.mem_cons_of_mem c e)
    simp only [List.cons_append, splitNl, if_neg hc, List.append_eq, ih b ha]

theorem joinNl_cons {l : Str} {ls : List Str} (h : ls ≠ []) :
    joinNl (l :: ls) = l ++ '\n' :: joinNl ls := by
  cases ls with
  | nil => exact absurd rfl h
  | cons m ms => rfl

theorem splitNl_joinNl : ∀ (lines : List Str), (∀ ln ∈ lines, ('\n':Char) ∉ ln) →
    lines ≠ [] → splitNl (joinNl lines) = lines := by
  intro lines
  induction lines with
  | nil => intro _ h; exact absurd rfl h
  | cons l ls ih =>
    intro hnl _
    cases ls with
    | nil => exact splitNl_single l (hnl l (by simp))
    | cons m ms =>
      rw [joinNl_cons (by simp : (m :: ms : List Str) ≠ []),
        splitNl_append_nl l (joinNl (m :: ms)) (hnl l (by simp)),
        ih (fun x hx => hnl x (List.mem_cons_of_mem l hx)) (by simp)]

theorem joinNl_concat : ∀ (lines : List Str) (x : Str), lines ≠ [] →
    joinNl (lines ++ [x]) = joinNl lines ++ '\n' :: x := by
  intro lines
  induction lines with
  | nil => intro x h; exact absurd rfl h
  | cons l ls ih =>
    intro x _
    cases ls with
    | nil => rfl
    | cons m ms =>
      have h1 : joinNl ((l :: m :: ms) ++ [x]) = l ++ '\n' :: joinNl ((m :: ms) ++ [x]) := rfl
      rw [h1, ih x (by simp), joinNl_cons (by simp : (m :: ms : List Str) ≠ [])]
      simp [List.cons_append, List.append_assoc]

theorem head?_append_left {α : Type} (x y : List α) (h : x ≠ []) :
    (x ++ y).head? = x.head? := by
  cases x with
  | nil => exact absurd rfl h
  | cons a t => rfl

theorem mem_of_head?_eq {α : Type} (l : List α) (c : α) (h : l.head? = some c) : c ∈ l := by
  cases l with
  | nil => cases h
  | cons a t =>
    injection h with h
    rw [← h]
    exact List.mem_cons_self a t

theorem getLast?_via_reverse {α : Type} (l : List α) : l.getLast? = l.reverse.head? :=
  (List.head?_reverse l).symm

theorem getLast?_append_ne {α : Type} (x y : List α) (h : y ≠ []) :
    (x ++ y).getLast? = y.getLast? := by
  rw [getLast?_via_reverse, getLast?_via_reverse y, List.reverse_append,
    head?_append_left _ _ (by simpa using h)]

theorem getLast?_cons_ne {α : Type} (a : α) (l : List α) (h : l ≠ []) :
    (a :: l).getLast? = l.getLast? := by
  have h1 : (a :: l : List α) = [a] ++ l := rfl
  rw [h1, getLast?_append_ne [a] l h]

theorem concat_ne_nil {α : Type} (x : List α) (c : α) : x ++ [c] ≠ [] := by
  cases x <;> simp

theorem endsWithNl_concat_nl (x : Str) : endsWithNl (x ++ ['\n']) = true := by
  simp [endsWithNl, getLast?_append_ne x ['\n'] (by simp)]

theorem endsWithNl_append {a b : Str} (h : b ≠ []) : endsWithNl (a ++ b) = endsWithNl b := by
  simp [endsWithNl, getLast?_append_ne a b h]

theorem joinNl_ne_nil : ∀ (lines : List Str), lines ≠ [] →
    lines.getLast? ≠ some ([] : Str) → joinNl lines ≠ [] := by
  intro lines
  induction lines with
  | nil => intro h _; exact absurd rfl h
  | cons l ls ih =>
    intro _ hlast
    cases ls with
    | nil =>
      intro h
      apply hlast
      have hl : l = [] := h
      rw [hl]
      rfl
    | cons m ms =>
      rw [joinNl_cons (by simp : (m :: ms : List Str) ≠ [])]
      simp

theorem endsWithNl_joinNl : ∀ (lines : List Str), lines ≠ [] →
    lines.getLast? ≠ some ([] : Str) → (∀ ln ∈ lines, ('\n':Char) ∉ ln) →
    endsWithNl (joinNl lines) = false := by
  intro lines
  induction lines with
  | nil => intro h; exact absurd rfl h
  | cons l ls ih =>
    intro _ hlast hnl
    cases ls with
    | nil =>
      cases he : List.getLast? l with
      | none => simp [joinNl, endsWithNl, he]
      | some c =>
        have hcm : c ∈ l := by
          have h1 : l.reverse.head? = some c := by
            rw [← getLast?_via_reverse]
            exact he
          have h2 := mem_of_head?_eq l.reverse c h1
          simpa using h2
        have hc : ¬ (c = '\n') := fun e => (hnl l (by simp)) (e ▸ hcm)
        simp [joinNl, endsWithNl, he, hc]
    | cons m ms =>
      rw [joinNl_cons (by simp : (m :: ms : List Str) ≠ [])]
      have hlast2 : (m :: ms : List Str).getLast? ≠ some [] := by
        rw [← getLast?_cons_ne l (m :: ms) (by simp)]
        exact hlast
      have hjne : joinNl (m :: ms) ≠ [] := joinNl_ne_nil (m :: ms) (by simp) hlast2
      have ih2 := ih (by simp) hlast2 (fun x hx => hnl x (List.mem_cons_of_mem l hx))
      rw [endsWithNl_append (by simp : ('\n' :: joinNl (m :: ms) : Str) ≠ [])]
      rw [show endsWithNl ('\n' :: joinNl (m :: ms)) = endsWithNl (joinNl (m :: ms)) from by
        simp [endsWithNl, getLast?_cons_ne '\n' _ hjne]]
      exact ih2

theorem pySplitlines_renderEnv (lines : List Str) (trail : Bool)
    (h1 : ∀ ln ∈ lines, ('\n':Char) ∉ ln)
    (h2 : trail = true → lines ≠ [])
    (h3 : trail = false → lines.getLast? ≠ some ([] : Str)) :
    pySplitlines (renderEnv lines trail) = lines := by
  cases trail with
  | true =>
    have hne := h2 rfl
    have ht_ne : renderEnv lines true ≠ [] := by
      simp [renderEnv]
    have hend : endsWithNl (renderEnv lines true) = true := by
      show endsWithNl (joinNl lines ++ ['\n']) = true
      exact endsWithNl_concat_nl _
    simp only [pySplitlines]
    rw [if_neg ht_ne, if_pos hend]
    have hsp : splitNl (renderEnv lines true) = lines ++ [([] : Str)] := by
      show splitNl (joinNl lines ++ ['\n']) = lines ++ [[]]
      rw [show (joinNl lines ++ ['\n'] : Str) = joinNl lines ++ '\n' :: [] from rfl,
        ← joinNl_concat lines [] hne]
      refine splitNl_joinNl (lines ++ [[]]) ?_ (concat_ne_nil lines [])
      intro ln hln
      rcases List.mem_append.mp hln with h | h
      · exact h1 ln h
      · rw [List.mem_singleton.mp h]
        simp
    rw [hsp, List.dropLast_concat]
  | false =>
    cases hl : lines with
    | nil =>
      show pySplitlines (renderEnv [] false) = []
      decide
    | cons l ls =>
      rw [← hl]
      have hne : lines ≠ [] := by rw [hl]; simp
      have hre : renderEnv lines false = joinNl lines := by simp [renderEnv]
      have hni : joinNl lines ≠ [] := joinNl_ne_nil lines hne (h3 rfl)
      have hend : endsWithNl (joinNl lines) = false := endsWithNl_joinNl lines hne (h3 rfl) h1
      rw [hre]
      simp only [pySplitlines]
      rw [if_neg hni, if_neg (by simp [hend]), splitNl_joinNl lines h1 hne]

theorem pySplitlines_joinNl_concat (L : List Str) (hne : L ≠ [])
    (h : ∀ ln ∈ L, ('\n':Char) ∉ ln) :
    pySplitlines (joinNl L ++ ['\n']) = L := by
  have h2 : renderEnv L true = joinNl L ++ ['\n'] := by simp [renderEnv]
  rw [← h2]
  exact pySplitlines_renderEnv L true h (fun _ => hne) (fun hf => absurd hf (by decide))

theorem pyStrip_decomp (t : Str) : ∃ w1 w2, t = w1 ++ (pyStrip t ++ w2) := by
  refine ⟨t.takeWhile Char.isWhitespace,
    ((t.dropWhile Char.isWhitespace).reverse.takeWhile Char.isWhitespace).reverse, ?_⟩
  conv_lhs => rw [← @List.takeWhile_append_dropWhile _ Char.isWhitespace t]
  congr 1
  have h2 : (t.dropWhile Char.isWhitespace).reverse =
      (t.dropWhile Char.isWhitespace).reverse.takeWhile Char.isWhitespace ++
      (t.dropWhile Char.isWhitespace).reverse.dropWhile Char.isWhitespace :=
    (@List.takeWhile_append_dropWhile _ Char.isWhitespace _).symm
  have h3 := congrArg List.reverse h2
  rw [List.reverse_reverse, List.reverse_append] at h3
  simp only [pyStrip]
  exact h3

theorem strip_match_hasSub (ln : Str) (h : isPre KEY (pyStrip ln) = true) :
    hasSub KEY ln = true := by
  obtain ⟨w1, w2, hw⟩ := pyStrip_decomp ln
  rw [hw]
  exact hasSub_append_left (hasSub_of_isPre (isPre_extend h w2)) w1

theorem KEY_ne_nil : KEY ≠ [] := by decide

theorem KEY_no_nl : ('\n':Char) ∉ KEY := by decide

theorem KEY_head : KEY = 'H' :: "USQ_REFRESH_TOKEN=".toList := by decide

theorem KEY_rev : KEY.reverse = '=' :: "NEKOT_HSERFER_QSUH".toList := by decide

theorem dropWhile_keyAppend (r : Str) :
    (KEY ++ r).dropWhile Char.isWhitespace = KEY ++ r := by
  rw [KEY_head, List.cons_append, List.dropWhile_cons, if_neg (by decide)]

theorem dropWhile_append' (p : Char → Bool) : ∀ (a b : Str),
    (a ++ b).dropWhile p =
      if (a.dropWhile p).isEmpty then b.dropWhile p else a.dropWhile p ++ b := by
  intro a b
  induction a with
  | nil => simp
  | cons c a' ih =>
    by_cases hc : p c = true
    · rw [List.cons_append, List.dropWhile_cons, if_pos hc, ih,
        List.dropWhile_cons, if_pos hc]
    · rw [List.cons_append, List.dropWhile_cons, if_neg hc,
        List.dropWhile_cons, if_neg hc]
      simp

theorem keyline_pyStrip (ln : Str) (h : isKeyLine ln = true) :
    isPre KEY (pyStrip ln) = true := by
  obtain ⟨r, hr⟩ := isPre_exists h
  rw [hr]
  simp only [pyStrip]
  rw [dropWhile_keyAppend r, List.reverse_append,
    dropWhile_append' Char.isWhitespace r.reverse KEY.reverse]
  by_cases hre : (r.reverse.dropWhile Char.isWhitespace).isEmpty = true
  · rw [if_pos hre]
    have hkr : KEY.reverse.dropWhile Char.isWhitespace = KEY.reverse := by
      rw [KEY_rev, List.dropWhile_cons, if_neg (by decide)]
    rw [hkr, List.reverse_reverse]
    exact isPre_self KEY
  · rw [if_neg hre, List.reverse_append, List.reverse_reverse]
    exact isPre_append_self KEY _

theorem match_eq_keyline (lines : List Str)
    (h5 : ∀ ln ∈ lines, hasSub KEY ln = true → isKeyLine ln = true) :
    ∀ ln ∈ lines, isPre KEY (pyStrip ln) = isKeyLine ln := by
  intro ln hln
  cases hk : isKeyLine ln with
  | true => exact keyline_pyStrip ln hk
  | false =>
    cases hs : isPre KEY (pyStrip ln) with
    | false => rfl
    | true =>
      have h1 := h5 ln hln (strip_match_hasSub ln hs)
      simp [h1] at hk

theorem hasSub_eq_keyline (lines : List Str)
    (h5 : ∀ ln ∈ lines, hasSub KEY ln = true → isKeyLine ln = true) :
    ∀ ln ∈ lines, hasSub KEY ln = isKeyLine ln := by
  intro ln hln
  cases hk : isKeyLine ln with
  | true => exact hasSub_of_isPre hk
  | false =>
    cases hs : hasSub KEY ln with
    | false => rfl
    | true =>
      have h1 := h5 ln hln hs
      simp [h1] at hk

theorem any_congr' {α : Type} (f g : α → Bool) : ∀ l : List α,
    (∀ x ∈ l, f x = g x) → l.any f = l.any g := by
  intro l
  induction l with
  | nil => intro _; rfl
  | cons a t ih =>
    intro h
    simp only [List.any_cons, h a (by simp), ih (fun x hx => h x (List.mem_cons_of_mem a hx))]

theorem entry_keyline (rt : Str) : isKeyLine (entryLine rt) = true :=
  isPre_append_self KEY rt

theorem entry_no_nl {rt : Str} (h : ('\n':Char) ∉ rt) : ('\n':Char) ∉ entryLine rt := by
  intro hm
  rcases List.mem_append.mp hm with hm | hm
  · exact KEY_no_nl hm
  · exact h hm

theorem entry_ne_nil (rt : Str) : entryLine rt ≠ [] := by
  intro h
  simp only [entryLine] at h
  obtain ⟨h1, h2⟩ := List.append_eq_nil.mp h
  exact KEY_ne_nil h1

theorem replaceFirstRT_none (rt : Str) : ∀ (lines : List Str),
    (∀ ln ∈ lines, isPre KEY (pyStrip ln) = isKeyLine ln) →
    (∀ ln ∈ lines, isKeyLine ln = false) →
    replaceFirstRT rt lines = none := by
  intro lines
  induction lines with
  | nil => intro _ _; rfl
  | cons ln rest ih =>
    intro hmatch hno
    have h1 : isPre KEY (pyStrip ln) = false := by
      rw [hmatch ln (by simp)]
      exact hno ln (by simp)
    simp only [replaceFirstRT]
    rw [if_neg (by simp [h1]),
      ih (fun x hx => hmatch x (List.mem_cons_of_mem ln hx))
        (fun x hx => hno x (List.mem_cons_of_mem ln hx))]
    rfl

theorem replaceFirstRT_some (rt : Str) : ∀ (lines : List Str),
    (∀ ln ∈ lines, isPre KEY (pyStrip ln) = isKeyLine ln) →
    lines.any isKeyLine = true →
    ∃ l2, replaceFirstRT rt lines = some l2 ∧
      l2 ≠ [] ∧
      l2.filter (fun ln => !isKeyLine ln) = lines.filter (fun ln => !isKeyLine ln) ∧
      entryLine rt ∈ l2 ∧
      (∀ ln ∈ l2, ln = entryLine rt ∨ ln ∈ lines) := by
  intro lines
  induction lines with
  | nil => intro _ h; simp at h
  | cons ln rest ih =>
    intro hmatch hany
    cases hk : isKeyLine ln with
    | true =>
      have h1 : isPre KEY (pyStrip ln) = true := by
        rw [hmatch ln (by simp)]
        exact hk
      refine ⟨entryLine rt :: rest, ?_, by simp, ?_, by simp, ?_⟩
      · simp only [replaceFirstRT]
        rw [if_pos h1]
      · simp [List.filter_cons, entry_keyline rt, hk]
      · intro x hx
        rcases List.mem_cons.mp hx with h | h
        · exact Or.inl h
        · exact Or.inr (List.mem_cons_of_mem ln h)
    | false =>
      have h1 : isPre KEY (pyStrip ln) = false := by
        rw [hmatch ln (by simp)]
        exact hk
      have hany' : rest.any isKeyLine = true := by
        simp only [List.any_cons, hk, Bool.false_or] at hany
        exact hany
      obtain ⟨l2, he, hne, hf, hm, hsub⟩ :=
        ih (fun x hx => hmatch x (List.mem_cons_of_mem ln hx)) hany'
      refine ⟨ln :: l2, ?_, by simp, ?_, List.mem_cons_of_mem ln hm, ?_⟩
      · simp only [replaceFirstRT]
        rw [if_neg (by simp [h1]), he]
        rfl
      · simp [List.filter_cons, hk, hf]
      · intro x hx
        rcases List.mem_cons.mp hx with h | h
        · exact Or.inr (by rw [h]; simp)
        · rcases hsub x h with h2 | h2
          · exact Or.inl h2
          · exact Or.inr (List.mem_cons_of_mem ln h2)

theorem amcMap_filter (rt : Str) : ∀ lines : List Str,
    (lines.map (fun ln => if isKeyLine ln then entryLine rt else ln)).filter
        (fun ln => !isKeyLine ln) =
      lines.filter (fun ln => !isKeyLine ln) := by
  intro lines
  induction lines with
  | nil => rfl
  | cons ln rest ih =>
    cases hk : isKeyLine ln with
    | true => simp [List.filter_cons, hk, entry_keyline rt, ih]
    | false => simp [List.filter_cons, hk, ih]

theorem amcMap_mem (rt : Str) : ∀ lines : List Str, lines.any isKeyLine = true →
    entryLine rt ∈ lines.map (fun ln => if isKeyLine ln then entryLine rt else ln) := by
  intro lines
  induction lines with
  | nil => intro h; simp at h
  | cons ln rest ih =>
    intro hany
    cases hk : isKeyLine ln with
    | true => simp [hk]
    | false =>
      have hany' : rest.any isKeyLine = true := by
        simp only [List.any_cons, hk, Bool.false_or] at hany
        exact hany
      simp only [List.map_cons, hk, Bool.false_eq_true, if_false]
      exact List.mem_cons_of_mem _ (ih hany')

theorem amcMap_no_nl {rt : Str} (hrt : ('\n':Char) ∉ rt) (lines : List Str)
    (h : ∀ ln ∈ lines, ('\n':Char) ∉ ln) :
    ∀ ln ∈ lines.map (fun ln => if isKeyLine ln then entryLine rt else ln),
      ('\n':Char) ∉ ln := by
  intro ln hln
  obtain ⟨x, hx, hfx⟩ := List.mem_map.mp hln
  by_cases hk : isKeyLine x = true
  · rw [← hfx, if_pos hk]
    exact entry_no_nl hrt
  · rw [← hfx, if_neg hk]
    exact h x hx

theorem getLast?_map {α β : Type} (f : α → β) : ∀ l : List α,
    (l.map f).getLast? = l.getLast?.map f := by
  intro l
  induction l with
  | nil => rfl
  | cons a t ih =>
    cases t with
    | nil => rfl
    | cons b s =>
      rw [List.map_cons, getLast?_cons_ne (f a) ((b :: s).map f) (by simp), ih,
        getLast?_cons_ne a (b :: s) (by simp)]

theorem parseTemplateF_lit : ∀ (fuel : Nat), ∀ t : Str, t.length < fuel →
    ('\\' : Char) ∉ t → parseTemplateF fuel t = Except.ok (t.map TemplItem.lit) := by
  intro fuel
  induction fuel with
  | zero =>
    intro t h
    exact absurd h (by omega)
  | succ n ih =>
    intro t hlen hb
    cases t with
    | nil => rfl
    | cons c rest =>
      have hc : ¬ (c = '\\') := fun e => hb (List.mem_cons.mpr (Or.inl e.symm))
      have hbr : ('\\':Char) ∉ rest := fun e => hb (List.mem_cons_of_mem c e)
      have hlr : rest.length < n := by
        simp only [List.length_cons] at hlen
        omega
      simp only [parseTemplateF, if_neg hc, ih rest hlr hbr, consLit]
      rfl

theorem parseTemplate_lit (t : Str) (hb : ('\\' : Char) ∉ t) :
    parseTemplate t = Except.ok (t.map TemplItem.lit) :=
  parseTemplateF_lit (t.length + 1) t (by omega) hb

theorem renderTemplate_lit : ∀ (t m : Str), renderTemplate m (t.map TemplItem.lit) = t := by
  intro t m
  induction t with
  | nil => rfl
  | cons c r ih => simp only [List.map_cons, renderTemplate, ih]

theorem breakFree_no_nl {l : Str} (h : ∀ ch ∈ l, pyLineBreak ch = false) :
    ('\n' : Char) ∉ l := by
  intro hm
  have h1 := h '\n' hm
  simp [pyLineBreak] at h1

theorem breakFree_no_bs_key (rt : Str) (hb : ('\\' : Char) ∉ rt) :
    ('\\' : Char) ∉ KEY ++ rt := by
  intro hm
  rcases List.mem_append.mp hm with h | h
  · exact absurd h (by decide)
  · exact hb h

/-! ### Theorems for claims C5 and C6 -/

/-- Claim C5, counterexample, one concrete violation per failure mode.
(1) `_persist_rotated_rt` on a file whose only line is `A=HUSQ_REFRESH_TOKEN=x`
(the key occurs only inside another value): the substring test fires, the
MULTILINE regex matches no line, the file is left unchanged and the entry is
NOT appended although the key is absent.  (2) `_persist_refresh_token_to_env`
on `HUSQ_REFRESH_TOKEN=old` without a trailing newline: the rewrite adds a
final newline, changing the trailing-newline discipline.  (3) the same
function with a value containing a newline splinters the entry into two
lines, changing other lines of the file.  (4) `_persist_rotated_rt` with the
newline-free value `x\q`: the substitution template raises `re.error`
(bad escape), the broad `except` swallows it, and the stale entry is left
in place instead of being rewritten. -/
theorem C5_counterexample :
    C5claimB persist_rotated_rt "new".toList (some "A=HUSQ_REFRESH_TOKEN=x\n".toList) = false ∧
    C5claimB persist_refresh_token_to_env "new".toList
      (some "HUSQ_REFRESH_TOKEN=old".toList) = false ∧
    C5claimB persist_refresh_token_to_env "a\nb".toList (some "X=1\n".toList) = false ∧
    C5claimB persist_rotated_rt "x\\q".toList (some "HUSQ_REFRESH_TOKEN=a\n".toList) = false := by
  refine ⟨by decide, by decide, by decide, by decide⟩

/-- Claim C5 (amended): for every persisted value free of backslashes and
of line-break characters, and every prior content whose characters include
no line break other than `'\n'` and in which the literal
`HUSQ_REFRESH_TOKEN=` occurs only as a line prefix (the prior content
presented canonically as its lines plus a trailing-newline flag): an
absent file is created containing only the new entry; otherwise, after
either persist function runs, every non-key line is unchanged (in
particular no other key's value changes), the file contains the entry with
the new value, the entry is appended when the key was absent, and a
trailing newline is preserved when the prior content had one (a missing
final newline may be normalized away by the rewrite). -/
theorem C5_persist_frame :
    ∀ (rt : Str) (lines : List Str) (trail : Bool),
    (∀ ch ∈ rt, pyLineBreak ch = false) →
    ('\\' : Char) ∉ rt →
    (∀ ln ∈ lines, ∀ ch ∈ ln, pyLineBreak ch = false) →
    (trail = true → lines ≠ []) →
    (trail = false → lines.getLast? ≠ some ([] : Str)) →
    (∀ ln ∈ lines, hasSub KEY ln = true → isKeyLine ln = true) →
    (persist_refresh_token_to_env rt none = entryLine rt ++ ['\n'] ∧
     persist_rotated_rt rt none = entryLine rt ++ ['\n']) ∧
    persistGood (persist_refresh_token_to_env rt (some (renderEnv lines trail))) rt lines trail ∧
    persistGood (persist_rotated_rt rt (some (renderEnv lines trail))) rt lines trail := by
  intro rt lines trail hrtbr hbs hlbr htr hfa h5
  have hrt : ('\n' : Char) ∉ rt := breakFree_no_nl hrtbr
  have hnl : ∀ ln ∈ lines, ('\n' : Char) ∉ ln := fun ln hln => breakFree_no_nl (hlbr ln hln)
  have hTempl : parseTemplate (KEY ++ rt) = Except.ok ((KEY ++ rt).map TemplItem.lit) :=
    parseTemplate_lit (KEY ++ rt) (breakFree_no_bs_key rt hbs)
  have hfun : (fun ln => if isKeyLine ln then renderTemplate ln ((KEY ++ rt).map TemplItem.lit)
      else ln) = (fun ln => if isKeyLine ln then entryLine rt else ln) := by
    funext ln
    rw [renderTemplate_lit (KEY ++ rt) ln]
    rfl
  have hmatch := match_eq_keyline lines h5
  have hsplit := pySplitlines_renderEnv lines trail hnl htr hfa
  have hLnl : ∀ ln ∈ lines ++ [entryLine rt], ('\n':Char) ∉ ln := by
    intro x hx
    rcases List.mem_append.mp hx with h | h
    · exact hnl x h
    · rw [List.mem_singleton.mp h]
      exact entry_no_nl hrt
  have hall_imp : lines.any isKeyLine = true →
      lines.all (fun ln => !isKeyLine ln) = true → False := by
    intro hkey hall
    obtain ⟨x, hx, hkx⟩ := List.any_eq_true.mp hkey
    have h2 := List.all_eq_true.mp hall x hx
    rw [hkx] at h2
    simp at h2
  refine ⟨⟨rfl, ?_⟩, ?_, ?_⟩
  · -- absent file, script variant
    have h0 : hasSub KEY ([] : Str) = false := by decide
    simp [persist_rotated_rt, h0]
  · -- main.py variant, file present
    by_cases hkey : lines.any isKeyLine = true
    · obtain ⟨l2, he, hne2, hf, hm, hsub⟩ := replaceFirstRT_some rt lines hmatch hkey
      have hout : persist_refresh_token_to_env rt (some (renderEnv lines trail)) =
          joinNl l2 ++ ['\n'] := by
        simp only [persist_refresh_token_to_env, hsplit, he]
      have hl2nl : ∀ ln ∈ l2, ('\n':Char) ∉ ln := by
        intro x hx
        rcases hsub x hx with h | h
        · rw [h]
          exact entry_no_nl hrt
        · exact hnl x h
      have hps : pySplitlines
          (persist_refresh_token_to_env rt (some (renderEnv lines trail))) = l2 := by
        rw [hout]
        exact pySplitlines_joinNl_concat l2 hne2 hl2nl
      refine ⟨?_, ?_, ?_, ?_⟩
      · rw [hps, hf]
      · rw [hps]
        exact hm
      · intro hall
        exact absurd (hall_imp hkey hall) (fun h => h)
      · intro _
        rw [hout]
        exact endsWithNl_concat_nl _
    · have hallf : ∀ ln ∈ lines, isKeyLine ln = false := by
        intro x hx
        cases hkx : isKeyLine x with
        | false => rfl
        | true => exact absurd (List.any_eq_true.mpr ⟨x, hx, hkx⟩) hkey
      have hnone := replaceFirstRT_none rt lines hmatch hallf
      have hout : persist_refresh_token_to_env rt (some (renderEnv lines trail)) =
          joinNl (lines ++ [entryLine rt]) ++ ['\n'] := by
        simp only [persist_refresh_token_to_env, hsplit, hnone]
      have hps : pySplitlines
          (persist_refresh_token_to_env rt (some (renderEnv lines trail))) =
          lines ++ [entryLine rt] := by
        rw [hout]
        exact pySplitlines_joinNl_concat _ (concat_ne_nil lines _) hLnl
      refine ⟨?_, ?_, ?_, ?_⟩
      · rw [hps, List.filter_append]
        simp [List.filter_cons, entry_keyline rt]
      · rw [hps]
        exact List.mem_append.mpr (Or.inr (by simp))
      · intro _
        exact hps
      · intro _
        rw [hout]
        exact endsWithNl_concat_nl _
  · -- script variant, file present
    have hsubtext : hasSub KEY (renderEnv lines trail) = lines.any isKeyLine := by
      cases hl : lines with
      | nil =>
        have ht : trail = false := by
          cases trail with
          | false => rfl
          | true => exact absurd hl (htr rfl)
        rw [ht]
        decide
      | cons l ls =>
        rw [← hl]
        have hne : lines ≠ [] := by rw [hl]; simp
        have h2 : lines.any (hasSub KEY) = lines.any isKeyLine :=
          any_congr' _ _ lines (hasSub_eq_keyline lines h5)
        cases trail with
        | false =>
          have hre : renderEnv lines false = joinNl lines := by simp [renderEnv]
          rw [hre, hasSub_joinNl KEY_no_nl KEY_ne_nil lines hne, h2]
        | true =>
          have hre : renderEnv lines true = joinNl lines ++ '\n' :: [] := by
            simp [renderEnv]
          rw [hre, hasSub_nl KEY_no_nl KEY_ne_nil (joinNl lines) [],
            hasSub_joinNl KEY_no_nl KEY_ne_nil lines hne, h2,
            show hasSub KEY ([] : Str) = false from by decide, Bool.or_false]
    by_cases hkey : lines.any isKeyLine = true
    · -- regex-rewrite branch
      have hcon : hasSub KEY (renderEnv lines trail) = true := by
        rw [hsubtext]
        exact hkey
      have hne : lines ≠ [] := by
        intro h
        rw [h] at hkey
        simp at hkey
      have hmapne : lines.map (fun ln => if isKeyLine ln then entryLine rt else ln) ≠ [] := by
        intro hc
        exact hne (List.map_eq_nil_iff.mp hc)
      have hout2 : persist_rotated_rt rt (some (renderEnv lines trail)) =
          renderEnv (lines.map (fun ln => if isKeyLine ln then entryLine rt else ln))
            trail := by
        simp only [persist_rotated_rt]
        rw [if_pos hcon, hTempl]
        simp only [applyTemplOrKeep]
        rw [hfun]
        cases trail with
        | true =>
          have hre : renderEnv lines true = joinNl (lines ++ [([] : Str)]) := by
            rw [joinNl_concat lines [] hne]
            simp [renderEnv]
          rw [hre, splitNl_joinNl (lines ++ [[]])
            (by
              intro x hx
              rcases List.mem_append.mp hx with h | h
              · exact hnl x h
              · rw [List.mem_singleton.mp h]
                simp)
            (concat_ne_nil lines []), List.map_append]
          rw [show ([([] : Str)].map (fun ln => if isKeyLine ln then entryLine rt else ln)) =
              [([] : Str)] from by
            simp [show isKeyLine ([] : Str) = false from by decide]]
          rw [joinNl_concat _ ([] : Str) hmapne]
          simp [renderEnv]
        | false =>
          have hre : renderEnv lines false = joinNl lines := by simp [renderEnv]
          rw [hre, splitNl_joinNl lines hnl hne]
          simp [renderEnv]
      have hmap_nl := amcMap_no_nl hrt lines hnl
      have hmap_last : trail = false →
          (lines.map (fun ln => if isKeyLine ln then entryLine rt else ln)).getLast? ≠
            some ([] : Str) := by
        intro ht hc
        rw [getLast?_map] at hc
        cases hx : lines.getLast? with
        | none =>
          rw [hx] at hc
          simp at hc
        | some x =>
          rw [hx] at hc
          simp only [Option.map_some'] at hc
          injection hc with hc2
          by_cases hk : isKeyLine x = true
          · rw [if_pos hk] at hc2
            exact entry_ne_nil rt hc2
          · rw [if_neg hk] at hc2
            exact (hfa ht) (by rw [hx, hc2])
      have hpso : pySplitlines (persist_rotated_rt rt (some (renderEnv lines trail))) =
          lines.map (fun ln => if isKeyLine ln then entryLine rt else ln) := by
        rw [hout2]
        exact pySplitlines_renderEnv _ trail hmap_nl (fun _ => hmapne) hmap_last
      refine ⟨?_, ?_, ?_, ?_⟩
      · rw [hpso]
        exact amcMap_filter rt lines
      · rw [hpso]
        exact amcMap_mem rt lines hkey
      · intro hall
        exact absurd (hall_imp hkey hall) (fun h => h)
      · intro ht
        rw [hout2, ht]
        show endsWithNl (joinNl _ ++ ['\n']) = true
        exact endsWithNl_concat_nl _
    · -- append branch
      have hcon : hasSub KEY (renderEnv lines trail) = false := by
        rw [hsubtext]
        cases h : lines.any isKeyLine with
        | false => rfl
        | true => exact absurd h hkey
      have hout : persist_rotated_rt rt (some (renderEnv lines trail)) =
          joinNl (lines ++ [entryLine rt]) ++ ['\n'] := by
        simp only [persist_rotated_rt]
        rw [if_neg (by simp [hcon])]
        cases hl : lines with
        | nil =>
          have ht : trail = false := by
            cases trail with
            | false => rfl
            | true => exact absurd hl (htr rfl)
          rw [ht]
          show (if (renderEnv [] false ≠ [] ∧ endsWithNl (renderEnv [] false) = false) then
              renderEnv [] false ++ ['\n'] else renderEnv [] false) ++
              (entryLine rt ++ ['\n']) = joinNl ([] ++ [entryLine rt]) ++ ['\n']
          rw [if_neg (by simp [renderEnv, joinNl])]
          simp [renderEnv, joinNl]
        | cons l ls =>
          rw [← hl]
          have hne : lines ≠ [] := by rw [hl]; simp
          cases trail with
          | true =>
            have h1 : renderEnv lines true = joinNl lines ++ ['\n'] := by simp [renderEnv]
            rw [h1, if_neg (by
              intro hcnd
              have h2 := endsWithNl_concat_nl (joinNl lines)
              rw [h2] at hcnd
              simp at hcnd)]
            rw [joinNl_concat lines (entryLine rt) hne]
            simp [List.cons_append, List.append_assoc]
          | false =>
            have h1 : renderEnv lines false = joinNl lines := by simp [renderEnv]
            rw [h1]
            have hjne := joinNl_ne_nil lines hne (hfa rfl)
            have hjend := endsWithNl_joinNl lines hne (hfa rfl) hnl
            rw [if_pos ⟨hjne, hjend⟩, joinNl_concat lines (entryLine rt) hne]
            simp [List.cons_append, List.append_assoc]
      have hps : pySplitlines (persist_rotated_rt rt (some (renderEnv lines trail))) =
          lines ++ [entryLine rt] := by
        rw [hout]
        exact pySplitlines_joinNl_concat _ (concat_ne_nil lines _) hLnl
      refine ⟨?_, ?_, ?_, ?_⟩
      · rw [hps, List.filter_append]
        simp [List.filter_cons, entry_keyline rt]
      · rw [hps]
        exact List.mem_append.mpr (Or.inr (by simp))
      · intro _
        exact hps
      · intro _
        rw [hout]
        exact endsWithNl_concat_nl _

/-- Witness for `C5_persist_frame`: rotating the token to `"b"` in a file
holding `OTHER=1` and a stale token, with trailing newline, satisfies the
frame property for both persist variants. -/
theorem C5_persist_frame_witness :
    (∀ ch ∈ "b".toList, pyLineBreak ch = false) ∧
    (('\\' : Char) ∉ "b".toList) ∧
    persistGood (persist_refresh_token_to_env "b".toList
        (some (renderEnv ["OTHER=1".toList, "HUSQ_REFRESH_TOKEN=a".toList] true)))
      "b".toList ["OTHER=1".toList, "HUSQ_REFRESH_TOKEN=a".toList] true ∧
    persistGood (persist_rotated_rt "b".toList
        (some (renderEnv ["OTHER=1".toList, "HUSQ_REFRESH_TOKEN=a".toList] true)))
      "b".toList ["OTHER=1".toList, "HUSQ_REFRESH_TOKEN=a".toList] true := by
  have h := C5_persist_frame "b".toList ["OTHER=1".toList, "HUSQ_REFRESH_TOKEN=a".toList]
    true (by decide) (by decide) (by decide) (by decide) (by decide) (by decide)
  exact ⟨by decide, by decide, h.2.1, h.2.2⟩

/-- Claim C6 (code bug): neither persist function uses
write-to-temp-then-replace.  Both traces are a read followed by a single
truncating write to the credential path itself — no rename, no write to any
other path — and a crash after 3 characters of that write leaves the file
as `OTH`, losing both the unrelated key `OTHER` and the refresh token. -/
theorem C6_inplace_write :
    persistMainTrace "b".toList ".env" (some "OTHER=1\nHUSQ_REFRESH_TOKEN=a\n".toList) =
      [FsOp.readFile ".env",
       FsOp.writeFile ".env" "OTHER=1\nHUSQ_REFRESH_TOKEN=b\n".toList] ∧
    persistAmcTrace "b".toList ".env" (some "OTHER=1\nHUSQ_REFRESH_TOKEN=a\n".toList) =
      [FsOp.readFile ".env",
       FsOp.writeFile ".env" "OTHER=1\nHUSQ_REFRESH_TOKEN=b\n".toList] ∧
    (persistMainTrace "b".toList ".env"
      (some "OTHER=1\nHUSQ_REFRESH_TOKEN=a\n".toList)).all (fun op => !isRenameOp op) = true ∧
    (persistAmcTrace "b".toList ".env"
      (some "OTHER=1\nHUSQ_REFRESH_TOKEN=a\n".toList)).all (fun op => !isRenameOp op) = true ∧
    writesOnlyTo ".env" (persistMainTrace "b".toList ".env"
      (some "OTHER=1\nHUSQ_REFRESH_TOKEN=a\n".toList)) = true ∧
    writesOnlyTo ".env" (persistAmcTrace "b".toList ".env"
      (some "OTHER=1\nHUSQ_REFRESH_TOKEN=a\n".toList)) = true ∧
    (pySplitlines "OTHER=1\nHUSQ_REFRESH_TOKEN=a\n".toList).contains "OTHER=1".toList = true ∧
    crashState "OTHER=1\nHUSQ_REFRESH_TOKEN=b\n".toList 3 = "OTH".toList ∧
    (pySplitlines (crashState "OTHER=1\nHUSQ_REFRESH_TOKEN=b\n".toList 3)).contains
      "OTHER=1".toList = false ∧
    (pySplitlines (crashState "OTHER=1\nHUSQ_REFRESH_TOKEN=b\n".toList 3)).any
      isKeyLine = false := by
  refine ⟨by decide, by decide, by decide, by decide, by decide, by decide, by decide,
    by decide, by decide, by decide⟩

end Automower
